import Mathlib

/-!
Verification of the EDX plotting module
(`high_throughput_interactive_app/internal_functions/edx.py`).

The Python source is shallowly embedded: Python floats are modelled as
rationals, fallible operations (raised exceptions) are modelled with
`Option` or `Except`, spreadsheet cells are an inductive `Cell`, a parsed
XML document is a list of tagged nodes in document order, and the plotly
figures are an inductive `Fig` recording exactly the data the source puts
into them.
-/

namespace EDX

/-- Spreadsheet cell values as produced by openpyxl: a string, a number
(Python float or int, modelled as a rational) or an empty cell (None). -/
inductive Cell
  | str (s : String)
  | num (q : ℚ)
  | empty
  deriving DecidableEq

/-- The row list read from the worksheet (`LIST_DATA` in the source). -/
abbrev Table := List (List Cell)

/-! ### String parsing helpers

Python `str.split(sep)` for a one-character separator, keeping empty
pieces, and Python `int(...)` and `float(...)` on strings (without the
surrounding-whitespace tolerance of the Python builtins, which never
arises in the instrument files). -/

/-- `str.split(c)` on a list of characters: splits at every occurrence of
`c`, keeping empty pieces; the result is always non-empty. -/
def splitOnChar (c : Char) : List Char → List (List Char)
  | [] => [[]]
  | x :: xs =>
    match splitOnChar c xs with
    | [] => [[]]
    | y :: ys => if x = c then [] :: y :: ys else (x :: y) :: ys

/-- Value of a non-empty all-digit character list, `none` otherwise. -/
def digitsToNat? (l : List Char) : Option ℕ :=
  if l ≠ [] ∧ l.all Char.isDigit then
    some (l.foldl (fun acc c => 10 * acc + (c.toNat - 48)) 0)
  else none

/-- Python `int(s)` on a character list: optional sign then digits. -/
def parseIntL : List Char → Option ℤ
  | '-' :: rest => (digitsToNat? rest).map (fun n => -(n : ℤ))
  | '+' :: rest => (digitsToNat? rest).map (fun n => (n : ℤ))
  | l => (digitsToNat? l).map (fun n => (n : ℤ))

/-- Python `int(s)` on a string. -/
def parseInt (s : String) : Option ℤ :=
  parseIntL s.toList

/-- Unsigned decimal, possibly with a fractional part (`"5"`, `"5."`,
`".5"`, `"3.25"`); scientific notation does not occur in the files. -/
def parseFloatMag (l : List Char) : Option ℚ :=
  match splitOnChar '.' l with
  | [w] => (digitsToNat? w).map (fun n => (n : ℚ))
  | [w, f] =>
    if w = [] ∧ f = [] then none
    else
      match (if w = [] then some 0 else digitsToNat? w),
            (if f = [] then some 0 else digitsToNat? f) with
      | some a, some b => some ((a : ℚ) + (b : ℚ) / (10 : ℚ) ^ f.length)
      | _, _ => none
  | _ => none

/-- Python `float(s)` on a string: optional sign then magnitude. -/
def parseFloat (s : String) : Option ℚ :=
  match s.toList with
  | '-' :: rest => (parseFloatMag rest).map (fun q => -q)
  | '+' :: rest => parseFloatMag rest
  | l => parseFloatMag l

/-- Python `float(cell)`: numbers pass through, strings are parsed,
`float(None)` raises (`none`). -/
def floatOfCell : Cell → Option ℚ
  | Cell.num q => some q
  | Cell.str s => parseFloat s
  | Cell.empty => none

/-- Python `int(...)` applied to a rational (truncation toward zero). -/
def truncRat (q : ℚ) : ℤ :=
  q.num.tdiv (q.den : ℤ)

/-! ### Coordinate indexer

`start_x = start_y = -40` and `step = 5` as in both `generate_spectra`
(lines 37-39) and `generate_heatmap` (lines 193-196). -/

def start_x : ℤ := -40

def start_y : ℤ := -40

def step : ℤ := 5

/-- `x_idx, y_idx = int((x_pos - start_x) / step + 1), int((y_pos - start_y) / step + 1)`
(the Python division is float division, then `int` truncates). -/
def toIndex (x y : ℤ) : ℤ × ℤ :=
  (truncRat (((x : ℚ) - (start_x : ℚ)) / (step : ℚ) + 1),
   truncRat (((y : ℚ) - (start_y : ℚ)) / (step : ℚ) + 1))

/-- `x_pos, y_pos = (int(x_index) - 1) * step_x + start_x, (int(y_index) - 1) * step_y + start_y`
from `generate_heatmap` (lines 206-208). -/
def toPosition (i j : ℤ) : ℤ × ℤ :=
  ((i - 1) * step + start_x, (j - 1) * step + start_y)

theorem truncRat_intCast (n : ℤ) : truncRat ((n : ℚ)) = n := by
  simp [truncRat, Rat.intCast_num, Rat.intCast_den, Int.tdiv_one]

/-- Claim C1: for every valid grid position `(x, y)` in the configured
range (`start = -40`, `step = 5` in both axes), converting the position to
a scan index with `toIndex` and back with `toPosition` returns exactly the
original position. -/
theorem C1_roundtrip (x y : ℤ)
    (hx : ∃ kx : ℕ, x = start_x + step * kx)
    (hy : ∃ ky : ℕ, y = start_y + step * ky) :
    toPosition (toIndex x y).1 (toIndex x y).2 = (x, y) := by
  obtain ⟨kx, hkx⟩ := hx
  obtain ⟨ky, hky⟩ := hy
  subst hkx hky
  have hq : ∀ k : ℕ,
      (((start_x + step * k : ℤ) : ℚ) - (start_x : ℚ)) / (step : ℚ) + 1
        = ((k + 1 : ℤ) : ℚ) := by
    intro k
    have hstep : (step : ℚ) ≠ 0 := by norm_num [step]
    push_cast
    field_simp
  simp only [toIndex, toPosition, start_x, start_y, step] at *
  rw [hq kx, hq ky, truncRat_intCast, truncRat_intCast]
  simp only [Prod.mk.injEq]
  constructor <;> ring

/-- Concrete round trip at the grid position `(-35, -40)`. -/
theorem C1_roundtrip_witness :
    toPosition (toIndex (-35) (-40)).1 (toIndex (-35) (-40)).2 = (-35, -40) :=
  C1_roundtrip (-35) (-40) ⟨1, by decide⟩ ⟨0, by decide⟩

/-! ### Quantification table reader (`get_elements`, lines 119-163)

The `Option Table` argument stands for the outcome of
`load_workbook(filepath)`: `none` is a `FileNotFoundError` (caught by the
source and turned into `return []`), `some t` is the row list `LIST_DATA`
obtained from `ws.values`.  The Python function either returns a bare
list (`return []`, `return elm_options`) or a pair
(`return elm_options, LIST_DATA`); the two shapes are distinguished by
`GEResult`. -/

/-- The two run-time shapes of a `get_elements` return value. -/
inductive GEResult
  | single (elms : List Cell)
  | pair (elms : List Cell) (data : Table)
  deriving DecidableEq

/-- The totals-row scan of `get_elements` (lines 153-157): for each
`(index, elm)` of `enumerate(LIST_DATA[-3])` with `index > 0` and a
non-None cell, keep `index` when `float(elm) != 0.0`; a failing
`float(elm)` raises (`none`). -/
def collectIdx : List (ℕ × Cell) → Option (List ℕ)
  | [] => some []
  | (i, c) :: rest =>
    if 0 < i ∧ c ≠ Cell.empty then
      match floatOfCell c with
      | none => none
      | some q =>
        if q ≠ 0 then (collectIdx rest).map (fun l => i :: l)
        else collectIdx rest
    else collectIdx rest

/-- `get_elements` (lines 119-163).  `LIST_DATA[-3]` raises an
`IndexError` when the sheet has fewer than three rows; a header row
shorter than a kept index raises in `LIST_DATA[0][index]` (`none` from
the lookup); on a missing file the source returns the bare empty list no
matter what `with_plot` is. -/
def get_elements (wb : Option Table) (with_plot : Bool) : Option GEResult :=
  match wb with
  | none => some (GEResult.single [])
  | some t =>
    if 3 ≤ t.length then
      match collectIdx (t.getD (t.length - 3) []).enum with
      | none => none
      | some idxs =>
        match idxs.mapM (fun i => (t.headD [])[i]?) with
        | none => none
        | some opts =>
          some (if with_plot then GEResult.pair opts t else GEResult.single opts)
    else none

/-- Stated from the claim wording: a totals-row cell is kept when it is
non-null and its numeric value is non-zero. -/
def keptCell (c : Cell) : Bool :=
  decide (c ≠ Cell.empty) &&
    match floatOfCell c with
    | some q => decide (q ≠ 0)
    | none => false

/-- Stated from the claim wording: the header-row entries (excluding
column 0) whose totals-row cell (3rd row from the end) is kept, in header
order. -/
def selectedElements (t : Table) : List Cell :=
  (((t.getD (t.length - 3) []).enum.filter
      (fun p => decide (0 < p.1) && keptCell p.2)).map
    (fun p => (t.headD []).getD p.1 Cell.empty))

theorem keptCell_of_float (c : Cell) (q : ℚ) (hf : floatOfCell c = some q) :
    keptCell c = decide (q ≠ 0) := by
  cases c with
  | str s => simp only [floatOfCell] at hf; simp [keptCell, floatOfCell, hf]
  | num r => simp only [floatOfCell, Option.some.injEq] at hf; simp [keptCell, floatOfCell, hf]
  | empty => simp [floatOfCell] at hf

theorem collectIdx_eq (l : List (ℕ × Cell)) :
    ∀ idxs : List ℕ, collectIdx l = some idxs →
      idxs = (l.filter (fun p => decide (0 < p.1) && keptCell p.2)).map Prod.fst := by
  induction l with
  | nil =>
    intro idxs h
    simp only [collectIdx, Option.some.injEq] at h
    simp [← h]
  | cons p rest ih =>
    intro idxs h
    obtain ⟨i, c⟩ := p
    by_cases hic : 0 < i ∧ c ≠ Cell.empty
    · rw [collectIdx, if_pos hic] at h
      cases hf : floatOfCell c with
      | none =>
        simp only [hf] at h
        exact Option.noConfusion h
      | some q =>
        simp only [hf] at h
        by_cases hq : q ≠ 0
        · rw [if_pos hq] at h
          obtain ⟨l0, hl0, rfl⟩ := Option.map_eq_some'.mp h
          have hkept : (decide (0 < i) && keptCell c) = true := by
            simp [hic.1, keptCell_of_float c q hf, hq]
          simp [List.filter_cons, hkept, ih l0 hl0]
        · rw [if_neg hq] at h
          push_neg at hq
          have hkept : (decide (0 < i) && keptCell c) = false := by
            simp [keptCell_of_float c q hf, hq]
          simp [List.filter_cons, hkept, ih idxs h]
    · rw [collectIdx, if_neg hic] at h
      have hkept : (decide (0 < i) && keptCell c) = false := by
        rcases not_and_or.mp hic with hi | hc
        · simp [hi]
        · push_neg at hc
          subst hc
          simp [keptCell]
      simp [List.filter_cons, hkept, ih idxs h]

theorem mapM_lookup_eq (header : List Cell) (idxs : List ℕ) :
    ∀ opts : List Cell, idxs.mapM (fun i => header[i]?) = some opts →
      opts = idxs.map (fun i => header.getD i Cell.empty) := by
  induction idxs with
  | nil =>
    intro opts h
    simp only [List.mapM_nil, pure, Option.some.injEq] at h
    simp [← h]
  | cons i rest ih =>
    intro opts h
    rw [List.mapM_cons] at h
    cases hx : header[i]? with
    | none =>
      simp only [hx, Option.bind_eq_bind, Option.none_bind] at h
      exact Option.noConfusion h
    | some c =>
      cases hrest : List.mapM (fun i => header[i]?) rest with
      | none =>
        simp only [hx, hrest, Option.bind_eq_bind, Option.some_bind,
          Option.none_bind] at h
        exact Option.noConfusion h
      | some xs =>
        simp only [hx, hrest, Option.bind_eq_bind, Option.some_bind,
          Option.pure_def, Option.some.injEq] at h
        subst h
        simp [ih xs hrest, List.getD_eq_getElem?_getD, hx]

/-- Claim C5: for every readable summary table, `get_elements` returns
exactly the header-row entries (excluding column 0) whose cell in the
totals row (3rd from the end) is non-null and numerically non-zero, in
header-column order. -/
theorem C5_elements (t : Table) (opts : List Cell)
    (h : get_elements (some t) false = some (GEResult.single opts)) :
    opts = selectedElements t := by
  simp only [get_elements] at h
  by_cases hlen : 3 ≤ t.length
  · rw [if_pos hlen] at h
    cases hidx : collectIdx (t.getD (t.length - 3) []).enum with
    | none =>
      simp only [hidx] at h
      exact Option.noConfusion h
    | some idxs =>
      simp only [hidx] at h
      cases hmap : idxs.mapM (fun i => (t.headD [])[i]?) with
      | none =>
        simp only [hmap] at h
        exact Option.noConfusion h
      | some o =>
        simp only [hmap, Bool.false_eq_true, if_false, Option.some.injEq,
          GEResult.single.injEq] at h
        subst h
        rw [mapM_lookup_eq _ _ _ hmap, collectIdx_eq _ _ hidx]
        simp [selectedElements, List.map_map]
  · rw [if_neg hlen] at h
    exact absurd h (by simp)

/-- A five-row summary table: header, one scan row, the totals row (3rd
from the end, with `Co` totalling zero), and two trailing rows. -/
def sampleTable : Table :=
  [[Cell.str "Spectrum", Cell.str "Fe", Cell.str "Co", Cell.str "Nb"],
   [Cell.str "Spectrum_(1,1)", Cell.num 10, Cell.num 20, Cell.num 70],
   [Cell.str "Sum", Cell.num 50, Cell.num 0, Cell.num 50],
   [Cell.str "Mean", Cell.num 1, Cell.num 1, Cell.num 1],
   [Cell.str "Sigma", Cell.num 1, Cell.num 1, Cell.num 1]]

/-- Concrete run of `C5_elements`: on `sampleTable` the returned options
are `Fe` and `Nb` (the zero-totalled `Co` is excluded), and they agree
with `selectedElements`. -/
theorem C5_elements_witness :
    [Cell.str "Fe", Cell.str "Nb"] = selectedElements sampleTable :=
  C5_elements sampleTable [Cell.str "Fe", Cell.str "Nb"] (by decide)

/-- Claim C7: when the summary spreadsheet of a folder does not exist
(the workbook load yields `none`), `get_elements` with the table not
requested returns the bare empty list and does not raise. -/
theorem C7_missing_summary (tables : String → Option Table) (f : String)
    (h : tables f = none) :
    get_elements (tables f) false = some (GEResult.single []) := by
  rw [h]
  rfl

/-- Concrete run of `C7_missing_summary` on an empty file system. -/
theorem C7_missing_summary_witness :
    get_elements ((fun _ => none : String → Option Table) "folder") false
      = some (GEResult.single []) :=
  C7_missing_summary (fun _ => none) "folder" rfl

/-! ### Plot descriptions

The returned plotly figures, recording exactly the data the source puts
into them.  The heatmap stores the `x`, `y` and `z` series as one list of
triples: the source appends to the three parallel lists `X_POS`, `Y_POS`
and `ELM` in lockstep (lines 210-212). -/

inductive Fig
  | emptyScatter (height width : ℕ)
  | scatter (pts : List (ℚ × ℤ)) (title : String)
  | emptyHeatmap (height width : ℕ)
  | heatmap (pts : List (ℤ × ℤ × ℚ)) (title : String)
  deriving DecidableEq

/-! ### Heatmap renderer (`generate_heatmap`, lines 166-217) -/

/-- `s.startswith(p)` on character lists. -/
def startsWithL : List Char → List Char → Bool
  | [], _ => true
  | _ :: _, [] => false
  | p :: ps, c :: cs => p = c && startsWithL ps cs

/-- `row[0].startswith("Spectrum_")` (line 204). -/
def isScanLabel (s : String) : Bool :=
  startsWithL "Spectrum_".toList s.toList

/-- Python `row.index(x)`: index of the first equal entry, `ValueError`
(`none`) when absent. -/
def firstIndexOf (x : Cell) : List Cell → Option ℕ
  | [] => none
  | c :: cs => if c = x then some 0 else (firstIndexOf x cs).map (fun n => n + 1)

/-- `row[0].split("(")[-1].split(")")[0].split(",")` unpacked into exactly
two pieces, each fed to `int(...)` (line 205); any other shape raises
(`none`). -/
def parseScanLabel (s : String) : Option (ℤ × ℤ) :=
  let a := (splitOnChar '(' s.toList).getLastD []
  let b := (splitOnChar ')' a).headD []
  match splitOnChar ',' b with
  | [xi, yi] =>
    match parseIntL xi, parseIntL yi with
    | some i, some j => some (i, j)
    | _, _ => none
  | _ => none

/-- The row loop of `generate_heatmap` (lines 201-212), carrying the
element-column `index` (unassigned at first: using it before a header row
assigned it is a `NameError`, `none`).  A header row (`row[0] ==
"Spectrum"`) re-binds the index; a scan row (`row[0]` starts with
`"Spectrum_"`) contributes `(x_pos, y_pos, float(row[index]))` when
`|x_pos| + |y_pos| <= 60`; a first cell that is not a string raises in
`row[0].startswith` (`AttributeError`), an empty row raises in `row[0]`
(`IndexError`). -/
def heatRows (e : String) : Table → Option ℕ → Option (List (ℤ × ℤ × ℚ))
  | [], _ => some []
  | row :: rest, idx? =>
    match row.head? with
    | none => none
    | some (Cell.str s) =>
      if s = "Spectrum" then
        match firstIndexOf (Cell.str e) row with
        | none => none
        | some k => heatRows e rest (some k)
      else if isScanLabel s then
        match parseScanLabel s with
        | none => none
        | some (i, j) =>
          let x := (toPosition i j).1
          let y := (toPosition i j).2
          if |x| + |y| ≤ 60 then
            match idx? with
            | none => none
            | some k =>
              match row[k]? with
              | none => none
              | some c =>
                match floatOfCell c with
                | none => none
                | some q => (heatRows e rest idx?).map (fun pts => (x, y, q) :: pts)
          else heatRows e rest idx?
      else heatRows e rest idx?
    | some _ => none

/-- `generate_heatmap` (lines 166-217).  The `tables` argument is the
file system restricted to the summary spreadsheets: for a folder name it
gives the workbook content or `none` when the file is absent.  Note the
source unpacks `elms, LIST_DATA = get_elements(folderpath_edx,
with_plot=True)`; when `get_elements` returned the bare empty list this
unpacking raises a `ValueError` (`none`). -/
def generate_heatmap (tables : String → Option Table)
    (folder? element? : Option String) : Option Fig :=
  match folder?, element? with
  | none, _ => some (Fig.emptyHeatmap 800 800)
  | some _, none => some (Fig.emptyHeatmap 800 800)
  | some f, some e =>
    match get_elements (tables f) true with
    | none => none
    | some (GEResult.single _) => none
    | some (GEResult.pair elms data) =>
      if Cell.str e ∈ elms then
        match heatRows e data none with
        | none => none
        | some pts => some (Fig.heatmap pts ("EDX Heatmap for element " ++ e))
      else some (Fig.emptyHeatmap 800 800)

/-- Claim C3 (code bug): with the summary spreadsheet absent,
`get_elements` returns the bare empty list whether or not the table was
requested — so the table-requested call does not yield a pair — and
`generate_heatmap` on such a folder raises a `ValueError` while unpacking
that list (`none`), instead of returning a well-formed figure. -/
theorem C3_missing_summary_bug :
    get_elements none false = some (GEResult.single []) ∧
    get_elements none true = some (GEResult.single []) ∧
    generate_heatmap (fun _ => none) (some "folder") (some "Fe") = none :=
  ⟨rfl, rfl, rfl⟩

/-- Stated from the claim wording: the point one table row contributes to
the heatmap when the element column is `k` — a scan-row label parsed to
`(i, j)` places the point at `toPosition i j`, kept exactly when
`|x| + |y| ≤ 60`, with `z` the numeric value of the cell in column `k`. -/
def rowPoint (k : ℕ) (row : List Cell) : Option (ℤ × ℤ × ℚ) :=
  match row.head? with
  | some (Cell.str s) =>
    if s = "Spectrum" then none
    else if isScanLabel s then
      match parseScanLabel s with
      | some (i, j) =>
        if |(toPosition i j).1| + |(toPosition i j).2| ≤ 60 then
          match row[k]? with
          | some c =>
            (floatOfCell c).map (fun q => ((toPosition i j).1, (toPosition i j).2, q))
          | none => none
        else none
      | none => none
    else none
  | _ => none

theorem rowPoint_bound (k : ℕ) (row : List Cell) (p : ℤ × ℤ × ℚ)
    (h : rowPoint k row = some p) : |p.1| + |p.2.1| ≤ 60 := by
  unfold rowPoint at h
  repeat' split at h
  all_goals first
    | exact Option.noConfusion h
    | (obtain ⟨q, hq, rfl⟩ := Option.map_eq_some'.mp h
       simp_all)

theorem heatRows_scan (e : String) (k : ℕ) :
    ∀ (rest : Table) (pts : List (ℤ × ℤ × ℚ)),
      heatRows e rest (some k) = some pts →
      (∀ row ∈ rest, row.head? ≠ some (Cell.str "Spectrum")) →
      pts = rest.filterMap (rowPoint k) ∧
      ∀ row ∈ rest, ∀ s, row.head? = some (Cell.str s) →
        isScanLabel s = true →
        ∀ i j, parseScanLabel s = some (i, j) →
        |(toPosition i j).1| + |(toPosition i j).2| ≤ 60 →
        ∃ c q, row[k]? = some c ∧ floatOfCell c = some q := by
  intro rest
  induction rest with
  | nil =>
    intro pts h _
    simp only [heatRows, Option.some.injEq] at h
    subst h
    exact ⟨rfl, by simp⟩
  | cons row rrest ih =>
    intro pts h hnh
    have hnh' : ∀ r ∈ rrest, r.head? ≠ some (Cell.str "Spectrum") :=
      fun r hr => hnh r (List.mem_cons_of_mem _ hr)
    simp only [heatRows] at h
    cases hh : row.head? with
    | none =>
      rw [hh] at h
      exact Option.noConfusion h
    | some c0 =>
      cases c0 with
      | str s =>
        have hs : ¬(s = "Spectrum") := by
          intro hcontra
          exact hnh row (List.mem_cons_self row rrest) (hcontra ▸ hh)
        rw [hh] at h
        simp only [hs, if_false] at h
        by_cases hsw : isScanLabel s = true
        · rw [if_pos hsw] at h
          cases hp : parseScanLabel s with
          | none =>
            rw [hp] at h
            exact Option.noConfusion h
          | some ij =>
            obtain ⟨i, j⟩ := ij
            rw [hp] at h
            simp only at h
            by_cases hb : |(toPosition i j).1| + |(toPosition i j).2| ≤ 60
            · rw [if_pos hb] at h
              cases hck : row[k]? with
              | none =>
                rw [hck] at h
                exact Option.noConfusion h
              | some c =>
                rw [hck] at h
                simp only at h
                cases hfc : floatOfCell c with
                | none =>
                  rw [hfc] at h
                  exact Option.noConfusion h
                | some q =>
                  rw [hfc] at h
                  simp only at h
                  obtain ⟨pts', hpts', rfl⟩ := Option.map_eq_some'.mp h
                  obtain ⟨ihc, ihr⟩ := ih pts' hpts' hnh'
                  have hrp : rowPoint k row
                      = some ((toPosition i j).1, (toPosition i j).2, q) := by
                    simp [rowPoint, hh, hs, hsw, hp, hb, hck, hfc]
                  constructor
                  · simp [List.filterMap_cons, hrp, ihc]
                  · intro r hr s' hhead' hsw' i' j' hp' hb'
                    rcases List.mem_cons.mp hr with rfl | hr'
                    · exact ⟨c, q, hck, hfc⟩
                    · exact ihr r hr' s' hhead' hsw' i' j' hp' hb'
            · rw [if_neg hb] at h
              obtain ⟨ihc, ihr⟩ := ih pts h hnh'
              have hrp : rowPoint k row = none := by
                simp [rowPoint, hh, hs, hsw, hp, hb]
              constructor
              · simp [List.filterMap_cons, hrp, ihc]
              · intro r hr s' hhead' hsw' i' j' hp' hb'
                rcases List.mem_cons.mp hr with rfl | hr'
                · rw [hh] at hhead'
                  obtain rfl : s = s' := by
                    simpa using hhead'
                  rw [hp] at hp'
                  obtain ⟨rfl, rfl⟩ : i = i' ∧ j = j' := by
                    simpa using hp'
                  exact absurd hb' hb
                · exact ihr r hr' s' hhead' hsw' i' j' hp' hb'
        · rw [if_neg hsw] at h
          obtain ⟨ihc, ihr⟩ := ih pts h hnh'
          have hrp : rowPoint k row = none := by
            simp [rowPoint, hh, hs, hsw]
          constructor
          · simp [List.filterMap_cons, hrp, ihc]
          · intro r hr s' hhead' hsw' i' j' hp' hb'
            rcases List.mem_cons.mp hr with rfl | hr'
            · rw [hh] at hhead'
              obtain rfl : s = s' := by
                simpa using hhead'
              exact absurd hsw' hsw
            · exact ihr r hr' s' hhead' hsw' i' j' hp' hb'
      | num q =>
        rw [hh] at h
        exact Option.noConfusion h
      | empty =>
        rw [hh] at h
        exact Option.noConfusion h

/-- Claim C4: when `generate_heatmap` returns a heatmap for a summary
table with one header row naming the requested element in column `k`,
then (a) every table row naming a scan point whose derived position
satisfies `|x| + |y| ≤ 60` contributes a point whose `z` is the numeric
value of that row's column-`k` cell, (b) no point with `|x| + |y| > 60`
ever appears, and (c) the point list is exactly the filter-map of
`rowPoint` over the scan rows, so a point appears if and only if its
position satisfies the bound. -/
theorem C4_heatmap_points (tables : String → Option Table) (f e : String)
    (t : Table) (header : List Cell) (rest : Table) (elms : List Cell)
    (k : ℕ) (pts : List (ℤ × ℤ × ℚ)) (title : String)
    (hge : get_elements (tables f) true = some (GEResult.pair elms t))
    (hmem : Cell.str e ∈ elms)
    (ht : t = header :: rest)
    (hhead : header.head? = some (Cell.str "Spectrum"))
    (hk : firstIndexOf (Cell.str e) header = some k)
    (hone : ∀ row ∈ rest, row.head? ≠ some (Cell.str "Spectrum"))
    (hrun : generate_heatmap tables (some f) (some e)
      = some (Fig.heatmap pts title)) :
    (∀ row ∈ rest, ∀ s, row.head? = some (Cell.str s) →
        isScanLabel s = true →
        ∀ i j, parseScanLabel s = some (i, j) →
        |(toPosition i j).1| + |(toPosition i j).2| ≤ 60 →
        ∃ c q, row[k]? = some c ∧ floatOfCell c = some q ∧
          ((toPosition i j).1, (toPosition i j).2, q) ∈ pts) ∧
    (∀ p ∈ pts, |p.1| + |p.2.1| ≤ 60) ∧
    pts = rest.filterMap (rowPoint k) := by
  simp only [generate_heatmap, hge] at hrun
  rw [if_pos hmem] at hrun
  cases hhr : heatRows e t none with
  | none =>
    rw [hhr] at hrun
    exact Option.noConfusion hrun
  | some pts0 =>
    rw [hhr] at hrun
    simp only [Option.some.injEq, Fig.heatmap.injEq] at hrun
    obtain ⟨rfl, -⟩ := hrun
    subst ht
    simp only [heatRows, hhead] at hhr
    simp only [if_true, hk] at hhr
    obtain ⟨hchar, hsucc⟩ := heatRows_scan e k rest pts0 hhr hone
    subst hchar
    refine ⟨?_, ?_, rfl⟩
    · intro row hr s hhead' hsw i j hp hb
      obtain ⟨c, q, hck, hfc⟩ := hsucc row hr s hhead' hsw i j hp hb
      have hs : ¬(s = "Spectrum") := by
        intro hcontra
        exact hone row hr (hcontra ▸ hhead')
      have hrp : rowPoint k row
          = some ((toPosition i j).1, (toPosition i j).2, q) := by
        simp [rowPoint, hhead', hs, hsw, hp, hb, hck, hfc]
      exact ⟨c, q, hck, hfc, List.mem_filterMap.mpr ⟨row, hr, hrp⟩⟩
    · intro p hp
      obtain ⟨row, -, hrp⟩ := List.mem_filterMap.mp hp
      exact rowPoint_bound k row p hrp

/-- A six-row summary table for the heatmap: header, an excluded scan
point `(1,1)` (position `(-40, -40)`, `|x| + |y| = 80 > 60`), an included
scan point `(5,5)` (position `(-20, -20)`, `|x| + |y| = 40`), the totals
row (3rd from the end), and two trailing rows. -/
def heatTable : Table :=
  [[Cell.str "Spectrum", Cell.str "Fe", Cell.str "Co", Cell.str "Nb"],
   [Cell.str "Spectrum_(1,1)", Cell.num 10, Cell.num 20, Cell.num 70],
   [Cell.str "Spectrum_(5,5)", Cell.num 30, Cell.num 20, Cell.num 50],
   [Cell.str "Sum", Cell.num 50, Cell.num 0, Cell.num 50],
   [Cell.str "Mean", Cell.num 1, Cell.num 1, Cell.num 1],
   [Cell.str "Sigma", Cell.num 1, Cell.num 1, Cell.num 1]]

/-- Concrete run of `C4_heatmap_points` on `heatTable` for element `Fe`
(column 1): the included scan row `(5,5)` yields the point
`(-20, -20, 30)`, the only point of the plot. -/
theorem C4_heatmap_points_witness :
    ∃ c q,
      ([Cell.str "Spectrum_(5,5)", Cell.num 30, Cell.num 20,
        Cell.num 50] : List Cell)[1]? = some c ∧
      floatOfCell c = some q ∧
      ((toPosition 5 5).1, (toPosition 5 5).2, q)
        ∈ [((-20 : ℤ), (-20 : ℤ), (30 : ℚ))] :=
  (C4_heatmap_points (fun _ => some heatTable) "folder" "Fe" heatTable
      (heatTable.headD []) (heatTable.tail)
      [Cell.str "Fe", Cell.str "Nb"] 1 [((-20 : ℤ), (-20 : ℤ), (30 : ℚ))]
      "EDX Heatmap for element Fe"
      (by decide) (by decide) (by decide) (by decide) (by decide)
      (by decide) (by decide)).1
    [Cell.str "Spectrum_(5,5)", Cell.num 30, Cell.num 20, Cell.num 50]
    (by decide) "Spectrum_(5,5)" (by decide) (by decide) 5 5 (by decide)
    (by decide)

/-! ### Spectrum reader (`generate_spectra`, lines 15-116) -/

/-- The whitelist `params` of result attributes (lines 48-56). -/
def params : List String :=
  ["Atom", "XLine", "AtomPercent", "MassPercent", "NetIntens", "Background",
   "Sigma"]

/-- A node of the flattened `elm.iter()` sub-walk of a `"Results"` class
instance: its tag and its text. -/
structure RNode where
  tag : String
  text : String
  deriving DecidableEq

/-- The two exceptions the Results sub-walk can raise:
`results_ext[-1]` on an empty list (`IndexError`) and `int(child.text)`
on a non-integer text (`ValueError`). -/
inductive WalkErr
  | indexError
  | valueError
  deriving DecidableEq

/-- The value stored for one whitelisted attribute (lines 86-90): for an
`Atom` tag, `int(child.text)` is evaluated first, inside the branch
condition, so it can raise before any list access; values below 10 get a
`"0"` prefix (`f"0{child.text}"`), all others keep their text. -/
def paramValue (nd : RNode) : Except WalkErr String :=
  if nd.tag = "Atom" then
    match parseInt nd.text with
    | none => Except.error WalkErr.valueError
    | some n => Except.ok (if n < 10 then "0" ++ nd.text else nd.text)
  else Except.ok nd.text

/-- The `"Results"` sub-walk (lines 82-92): a `Result` tag starts a new
record, a whitelisted tag appends `(tag, value)` to the last record
(`results_ext[-1]`, an `IndexError` when no record exists yet), an
`ExtResults` tag stops the walk; the accumulator persists across several
`"Results"` blocks because `results_ext` is a local of the enclosing
function. -/
def walkResults : List RNode → List (List (String × String)) →
    Except WalkErr (List (List (String × String)))
  | [], acc => Except.ok acc
  | nd :: rest, acc =>
    if nd.tag = "Result" then walkResults rest (acc ++ [[]])
    else if nd.tag ∈ params then
      match paramValue nd with
      | Except.error e => Except.error e
      | Except.ok v =>
        match acc.getLast? with
        | none => Except.error WalkErr.indexError
        | some last => walkResults rest (acc.dropLast ++ [last ++ [(nd.tag, v)]])
    else if nd.tag = "ExtResults" then Except.ok acc
    else walkResults rest acc

/-- A matched child of an `"Elements"` class instance (one with `Type`
attribute `"TRTPSEElement"` in the flattened walk would be dispatched):
its `Type` and `Name` attributes and the `(tag, text)` pairs of its own
sub-tree walk. -/
structure ENode where
  typeAttr : Option String
  nameAttr : Option String
  descendants : List (String × String)
  deriving DecidableEq

/-- The `"Elements"` sub-walk (lines 93-100).  `nb_elm` is a plain local
of the enclosing Python function: the last `Element` text persists across
children and blocks, using it before any `Element` tag was ever seen is a
`NameError`, and a non-integer text is a `ValueError` (both `none`). -/
def walkElements : List ENode → Option String → List (ℤ × Option String) →
    Option (List (ℤ × Option String) × Option String)
  | [], nb, acc => some (acc, nb)
  | nd :: rest, nb, acc =>
    if nd.typeAttr = some "TRTPSEElement" then
      let nb' :=
        match (nd.descendants.filter (fun p => p.1 = "Element")).getLast? with
        | some p => some p.2
        | none => nb
      match nb' with
      | none => none
      | some txt =>
        match parseInt txt with
        | none => none
        | some z => walkElements rest nb' (acc ++ [(z, nd.nameAttr)])
    else walkElements rest nb acc

/-- The nodes of `root.iter()` that `generate_spectra` dispatches on
(lines 66-100), in document order.  Scalar tags carry the parsed float of
their text (`float(elm.text)` is a library call treated as a black box);
`Channels` carries its raw comma-separated text; the two `ClassInstance`
blocks carry their flattened child nodes; every other element is `other`.
A block's children are modelled as part of the block node; in the
instrument files they never carry the scalar top-level tags, so the
flattened `root.iter()` order and this nested form dispatch
identically. -/
inductive XElem
  | primaryEnergy (v : ℚ)
  | workingDistance (v : ℚ)
  | calibLin (v : ℚ)
  | calibAbs (v : ℚ)
  | channels (text : String)
  | resultsBlock (children : List RNode)
  | elementsBlock (children : List ENode)
  | other
  deriving DecidableEq

/-- The locals of `generate_spectra` during the document iteration, with
their initial values from lines 57-61 (`working_distance`, `edx_spectra`
and `nb_elm` start unassigned). -/
structure PState where
  voltage : ℤ
  working_distance : Option ℚ
  energy_step : ℚ
  zero_energy : ℚ
  edx_spectra : Option (List (ℚ × ℤ))
  results_ext : List (List (String × String))
  element_list : List (ℤ × Option String)
  nb_elm : Option String
  deriving DecidableEq

def initPState : PState :=
  ⟨0, none, 0, 0, none, [], [], none⟩

/-- `elm.text.split(",")` with `int(counts)` applied to each piece
(line 79). -/
def parseCounts (text : String) : Option (List ℤ) :=
  (splitOnChar ',' text.toList).mapM parseIntL

/-- `[((i + 1) * energy_step + zero_energy, int(counts)) for i, counts in
enumerate(...)]` (lines 76-81), with the calibration values currently in
scope when the `Channels` tag is met. -/
def spectrumOf (energy_step zero_energy : ℚ) (counts : List ℤ) :
    List (ℚ × ℤ) :=
  counts.enum.map (fun p => (((p.1 : ℚ) + 1) * energy_step + zero_energy, p.2))

/-- One iteration of the dispatch loop (lines 66-100). -/
def stepElem (st : PState) : XElem → Option PState
  | XElem.primaryEnergy v => some { st with voltage := truncRat v }
  | XElem.workingDistance v => some { st with working_distance := some v }
  | XElem.calibLin v => some { st with energy_step := v }
  | XElem.calibAbs v => some { st with zero_energy := v }
  | XElem.channels text =>
    match parseCounts text with
    | none => none
    | some counts =>
      some { st with
        edx_spectra := some (spectrumOf st.energy_step st.zero_energy counts) }
  | XElem.resultsBlock children =>
    match walkResults children st.results_ext with
    | Except.error _ => none
    | Except.ok res => some { st with results_ext := res }
  | XElem.elementsBlock children =>
    match walkElements children st.nb_elm st.element_list with
    | none => none
    | some (elems, nb) => some { st with element_list := elems, nb_elm := nb }
  | XElem.other => some st

/-- The whole document iteration. -/
def runDoc : PState → List XElem → Option PState
  | st, [] => some st
  | st, e :: rest =>
    match stepElem st e with
    | none => none
    | some st' => runDoc st' rest

/-- `generate_spectra` (lines 15-116).  The `fs` argument is the file
system restricted to the spectrum files: a folder name and scan index
give the parsed document, or `none` when the file is absent or malformed
(`ET.parse` raises, unhandled).  The scan index is computed before the
`None` check, as in the source.  Using `edx_spectra` in the plot without
a `Channels` tag in the document (line 106) is a `NameError` (`none`). -/
def generate_spectra (fs : String → ℤ × ℤ → Option (List XElem))
    (folder? : Option String) (x y : ℤ) : Option Fig :=
  let idx := toIndex x y
  match folder? with
  | none => some (Fig.emptyScatter 700 1300)
  | some f =>
    match fs f idx with
    | none => none
    | some doc =>
      match runDoc initPState doc with
      | none => none
      | some st =>
        match st.edx_spectra with
        | none => none
        | some pts =>
          some (Fig.scatter pts
            ("EDX Spectrum for " ++ f ++ " at position (" ++ toString x
              ++ ", " ++ toString y ++ ")"))

/-- Whether a document node is a `Channels` element. -/
def isChannels : XElem → Bool
  | XElem.channels _ => true
  | _ => false

theorem runDoc_append (p q : List XElem) :
    ∀ st, runDoc st (p ++ q)
      = match runDoc st p with
        | none => none
        | some st' => runDoc st' q := by
  induction p with
  | nil => intro st; simp [runDoc]
  | cons e rest ih =>
    intro st
    simp only [List.cons_append, runDoc]
    cases hse : stepElem st e with
    | none => simp
    | some st' => exact ih st'

theorem runDoc_spectra_of_no_channels :
    ∀ (s : List XElem) (st st' : PState), runDoc st s = some st' →
      (∀ e ∈ s, isChannels e = false) → st'.edx_spectra = st.edx_spectra := by
  intro s
  induction s with
  | nil =>
    intro st st' h _
    simp only [runDoc, Option.some.injEq] at h
    rw [← h]
  | cons e rest ih =>
    intro st st' h hs
    simp only [runDoc] at h
    cases hse : stepElem st e with
    | none =>
      rw [hse] at h
      exact Option.noConfusion h
    | some st1 =>
      rw [hse] at h
      have hne := hs e (List.mem_cons_self e rest)
      have h1 : st1.edx_spectra = st.edx_spectra := by
        cases e with
        | primaryEnergy v =>
          simp only [stepElem, Option.some.injEq] at hse
          rw [← hse]
        | workingDistance v =>
          simp only [stepElem, Option.some.injEq] at hse
          rw [← hse]
        | calibLin v =>
          simp only [stepElem, Option.some.injEq] at hse
          rw [← hse]
        | calibAbs v =>
          simp only [stepElem, Option.some.injEq] at hse
          rw [← hse]
        | channels t => simp [isChannels] at hne
        | resultsBlock ch =>
          simp only [stepElem] at hse
          cases hw : walkResults ch st.results_ext with
          | error er =>
            rw [hw] at hse
            exact Option.noConfusion hse
          | ok r =>
            simp only [hw, Option.some.injEq] at hse
            rw [← hse]
        | elementsBlock ch =>
          simp only [stepElem] at hse
          cases hw : walkElements ch st.nb_elm st.element_list with
          | none =>
            rw [hw] at hse
            exact Option.noConfusion hse
          | some pr =>
            obtain ⟨el, nb⟩ := pr
            simp only [hw, Option.some.injEq] at hse
            rw [← hse]
        | other =>
          simp only [stepElem, Option.some.injEq] at hse
          rw [← hse]
      rw [ih st1 st' h (fun e he => hs e (List.mem_cons_of_mem _ he)), h1]

theorem runDoc_channels_inline (p s : List XElem) (c : String)
    (stp st : PState)
    (hp : runDoc initPState p = some stp)
    (hs : ∀ e ∈ s, isChannels e = false)
    (h : runDoc initPState (p ++ XElem.channels c :: s) = some st) :
    ∃ counts, parseCounts c = some counts ∧
      st.edx_spectra
        = some (spectrumOf stp.energy_step stp.zero_energy counts) := by
  rw [runDoc_append] at h
  simp only [hp] at h
  simp only [runDoc, stepElem] at h
  cases hc : parseCounts c with
  | none =>
    rw [hc] at h
    exact Option.noConfusion h
  | some counts =>
    simp only [hc] at h
    exact ⟨counts, rfl, runDoc_spectra_of_no_channels s _ st h hs⟩

/-- Claim C2, amended: the energy transform is applied inline, at the
moment the `Channels` element is consumed, with the calibration values
accumulated on the prefix before it; calibration fields after the (last)
`Channels` element do not affect the series. -/
theorem C2_inline_transform (p s : List XElem) (c : String) (stp st : PState)
    (hp : runDoc initPState p = some stp)
    (hs : ∀ e ∈ s, isChannels e = false)
    (h : runDoc initPState (p ++ XElem.channels c :: s) = some st) :
    ∃ counts, parseCounts c = some counts ∧
      st.edx_spectra
        = some (spectrumOf stp.energy_step stp.zero_energy counts) :=
  runDoc_channels_inline p s c stp st hp hs h

/-- Concrete run of `C2_inline_transform`: document
`[CalibLin 2, Channels "1,2", CalibAbs 7]`; the series is built with
`energy_step = 2` and `zero_energy = 0`; the trailing `CalibAbs` is
ignored. -/
theorem C2_inline_transform_witness :
    ∃ counts, parseCounts "1,2" = some counts ∧
      (runDoc initPState
          [XElem.calibLin 2, XElem.channels "1,2", XElem.calibAbs 7]).bind
        PState.edx_spectra = some (spectrumOf 2 0 counts) := by
  obtain ⟨counts, hc, hsp⟩ :=
    C2_inline_transform [XElem.calibLin 2] [XElem.calibAbs 7] "1,2"
      ⟨0, none, 2, 0, none, [], [], none⟩
      ⟨0, none, 2, 7, some (spectrumOf 2 0 [1, 2]), [], [], none⟩
      rfl (by decide) rfl
  exact ⟨counts, hc, hsp⟩

/-- The two C2 counterexample documents: the same two elements, with the
calibration field before vs after the `Channels` element. -/
def docCalibFirst : List XElem := [XElem.calibLin 2, XElem.channels "1,2"]

/-- See `docCalibFirst`. -/
def docCalibLast : List XElem := [XElem.channels "1,2", XElem.calibLin 2]

/-- Claim C2 as stated is false: `docCalibFirst` and `docCalibLast` hold
the same elements and both parse, yet `generate_spectra` yields different
`(energy, counts)` series, because the transform runs inline at the
`Channels` element rather than after the whole document is consumed. -/
theorem C2_order_counterexample :
    generate_spectra (fun _ _ => some docCalibFirst) (some "f") 0 0
      ≠ generate_spectra (fun _ _ => some docCalibLast) (some "f") 0 0 := by
  have hc : parseCounts "1,2" = some [1, 2] := by decide
  have he : ([1, 2] : List ℤ).enum = [(0, 1), (1, 2)] := by decide
  simp only [generate_spectra, docCalibFirst, docCalibLast, runDoc, stepElem,
    hc, initPState, spectrumOf, he, ne_eq, Option.some.injEq, Fig.scatter.injEq,
    List.map_cons, List.map_nil, List.cons.injEq, Prod.mk.injEq]
  norm_num

theorem mapM_length_option {α β : Type} (f : α → Option β) :
    ∀ (l : List α) (l' : List β), l.mapM f = some l' → l'.length = l.length := by
  intro l
  induction l with
  | nil =>
    intro l' h
    simp only [List.mapM_nil, Option.pure_def, Option.some.injEq] at h
    subst h
    rfl
  | cons a rest ih =>
    intro l' h
    rw [List.mapM_cons] at h
    cases hx : f a with
    | none =>
      simp only [hx, Option.bind_eq_bind, Option.none_bind] at h
      exact Option.noConfusion h
    | some b =>
      cases hrest : rest.mapM f with
      | none =>
        simp only [hx, hrest, Option.bind_eq_bind, Option.some_bind,
          Option.none_bind] at h
        exact Option.noConfusion h
      | some bs =>
        simp only [hx, hrest, Option.bind_eq_bind, Option.some_bind,
          Option.pure_def, Option.some.injEq] at h
        rw [← h]
        simp [ih bs hrest]

theorem map_comp_fst_zip {α β γ : Type} (g : α → γ) :
    ∀ (l1 : List α) (l2 : List β), l2.length = l1.length →
      (l1.zip l2).map (fun p => g p.1) = l1.map g := by
  intro l1
  induction l1 with
  | nil => intro l2 h; simp
  | cons a r ih =>
    intro l2 h
    cases l2 with
    | nil => simp at h
    | cons b r2 =>
      simp only [List.zip_cons_cons, List.map_cons]
      rw [ih r2 (by simpa using h)]

theorem spectrumOf_length (es ze : ℚ) (counts : List ℤ) :
    (spectrumOf es ze counts).length = counts.length := by
  simp [spectrumOf]

theorem spectrumOf_fst (es ze : ℚ) (counts : List ℤ) :
    (spectrumOf es ze counts).map Prod.fst
      = (List.range counts.length).map
          (fun n : ℕ => ((n : ℚ) + 1) * es + ze) := by
  unfold spectrumOf
  rw [List.map_map, List.enum_eq_zip_range]
  have h := map_comp_fst_zip (fun n : ℕ => ((n : ℚ) + 1) * es + ze)
    (List.range counts.length) counts (by simp)
  simpa [Function.comp] using h

/-- Claim C9, amended: when `generate_spectra` returns a spectrum and the
document splits as a prefix `p`, the `Channels` element, and a
channels-free suffix, the spectrum has one pair per comma-separated value
of the `Channels` text, the energy of channel `i` is
`(i + 1) * energy_step + zero_energy` for the calibration values in
effect at the `Channels` element, and — provided that `energy_step` is
positive — the energies are strictly increasing. -/
theorem C9_spectrum_shape (fs : String → ℤ × ℤ → Option (List XElem))
    (f : String) (x y : ℤ) (p s : List XElem) (c : String)
    (stp : PState) (pts : List (ℚ × ℤ)) (title : String)
    (hfs : fs f (toIndex x y) = some (p ++ XElem.channels c :: s))
    (hs : ∀ e ∈ s, isChannels e = false)
    (hp : runDoc initPState p = some stp)
    (hrun : generate_spectra fs (some f) x y = some (Fig.scatter pts title)) :
    pts.length = (splitOnChar ',' c.toList).length ∧
    pts.map Prod.fst
      = (List.range pts.length).map
          (fun n : ℕ => ((n : ℚ) + 1) * stp.energy_step + stp.zero_energy) ∧
    (0 < stp.energy_step → (pts.map Prod.fst).Pairwise (· < ·)) := by
  simp only [generate_spectra, hfs] at hrun
  cases hr : runDoc initPState (p ++ XElem.channels c :: s) with
  | none =>
    rw [hr] at hrun
    exact Option.noConfusion hrun
  | some st =>
    simp only [hr] at hrun
    cases hsp : st.edx_spectra with
    | none =>
      rw [hsp] at hrun
      exact Option.noConfusion hrun
    | some pts0 =>
      simp only [hsp, Option.some.injEq, Fig.scatter.injEq] at hrun
      obtain ⟨rfl, -⟩ := hrun
      obtain ⟨counts, hc, hspec⟩ := runDoc_channels_inline p s c stp st hp hs hr
      rw [hsp] at hspec
      obtain rfl : pts0 = spectrumOf stp.energy_step stp.zero_energy counts := by
        simpa using hspec
      have hlen : counts.length = (splitOnChar ',' c.toList).length :=
        mapM_length_option parseIntL _ _ hc
      have hlen' : (spectrumOf stp.energy_step stp.zero_energy counts).length
          = counts.length := spectrumOf_length _ _ _
      refine ⟨hlen'.trans hlen, ?_, ?_⟩
      · rw [spectrumOf_fst, hlen']
      · intro hpos
        rw [spectrumOf_fst]
        rw [List.pairwise_map]
        refine (List.pairwise_lt_range counts.length).imp ?_
        intro a b hab
        have hq : (a : ℚ) + 1 < (b : ℚ) + 1 := by
          have : (a : ℚ) < (b : ℚ) := by exact_mod_cast hab
          linarith
        have := mul_lt_mul_of_pos_right hq hpos
        linarith

/-- Concrete run of `C9_spectrum_shape` on the document
`[CalibLin 1, Channels "3,5"]`. -/
theorem C9_spectrum_shape_witness :
    (spectrumOf 1 0 [3, 5]).length = (splitOnChar ',' "3,5".toList).length ∧
    (spectrumOf 1 0 [3, 5]).map Prod.fst
      = (List.range (spectrumOf 1 0 [3, 5]).length).map
          (fun n : ℕ => ((n : ℚ) + 1) * (1 : ℚ) + (0 : ℚ)) ∧
    ((0 : ℚ) < 1 → ((spectrumOf 1 0 [3, 5]).map Prod.fst).Pairwise (· < ·)) :=
  C9_spectrum_shape (fun _ _ => some [XElem.calibLin 1, XElem.channels "3,5"])
    "f" 0 0 [XElem.calibLin 1] [] "3,5" ⟨0, none, 1, 0, none, [], [], none⟩
    (spectrumOf 1 0 [3, 5])
    ("EDX Spectrum for " ++ "f" ++ " at position (" ++ toString (0 : ℤ)
      ++ ", " ++ toString (0 : ℤ) ++ ")")
    rfl (by decide) rfl rfl

/-- A parseable document whose calibration step is negative. -/
def docNegStep : List XElem := [XElem.calibLin (-1), XElem.channels "1,2"]

/-- Claim C9 as stated is false: `docNegStep` parses fine, yet its
energies `[-1, -2]` are not monotonically increasing (not even
non-decreasing). -/
theorem C9_counterexample :
    generate_spectra (fun _ _ => some docNegStep) (some "f") 0 0
      = some (Fig.scatter [((-1 : ℚ), (1 : ℤ)), (-2, 2)]
          ("EDX Spectrum for " ++ "f" ++ " at position (" ++ toString (0 : ℤ)
            ++ ", " ++ toString (0 : ℤ) ++ ")")) ∧
    ¬ (([((-1 : ℚ), (1 : ℤ)), (-2, 2)].map Prod.fst).Pairwise (· ≤ ·)) := by
  constructor
  · have hc : parseCounts "1,2" = some [1, 2] := by decide
    have he : ([1, 2] : List ℤ).enum = [(0, 1), (1, 2)] := by decide
    simp only [generate_spectra, docNegStep, runDoc, stepElem, hc, initPState,
      spectrumOf, he, List.map_cons, List.map_nil, Option.some.injEq,
      Fig.scatter.injEq, List.cons.injEq, Prod.mk.injEq]
    norm_num
  · intro h
    simp only [List.map_cons, List.map_nil, List.pairwise_cons] at h
    have := h.1 (-2) (by simp)
    norm_num at this

/-- Every stored attribute pair of a successful Results walk either was
already in the accumulator or comes from a node of the walked list, with
the value produced by `paramValue`. -/
theorem walkResults_mem (L : List RNode) :
    ∀ (acc res : List (List (String × String))),
      walkResults L acc = Except.ok res →
      ∀ rec ∈ res, ∀ pr ∈ rec,
        (∃ rec0 ∈ acc, pr ∈ rec0) ∨
        (∃ nd ∈ L, nd.tag = pr.1 ∧ paramValue nd = Except.ok pr.2) := by
  induction L with
  | nil =>
    intro acc res h rec hrec pr hpr
    simp only [walkResults, Except.ok.injEq] at h
    subst h
    exact Or.inl ⟨rec, hrec, hpr⟩
  | cons nd rest ih =>
    intro acc res h rec hrec pr hpr
    simp only [walkResults] at h
    by_cases h1 : nd.tag = "Result"
    · rw [if_pos h1] at h
      rcases ih (acc ++ [[]]) res h rec hrec pr hpr with
        ⟨rec0, hr0, hpr0⟩ | ⟨nd', hnd', ht, hv⟩
      · rcases List.mem_append.mp hr0 with ha | hb
        · exact Or.inl ⟨rec0, ha, hpr0⟩
        · obtain rfl : rec0 = [] := by simpa using hb
          simp at hpr0
      · exact Or.inr ⟨nd', List.mem_cons_of_mem _ hnd', ht, hv⟩
    · rw [if_neg h1] at h
      by_cases h2 : nd.tag ∈ params
      · rw [if_pos h2] at h
        cases hv : paramValue nd with
        | error er =>
          rw [hv] at h
          exact Except.noConfusion h
        | ok v =>
          simp only [hv] at h
          cases hl : acc.getLast? with
          | none =>
            rw [hl] at h
            exact Except.noConfusion h
          | some last =>
            simp only [hl] at h
            rcases ih _ res h rec hrec pr hpr with
              ⟨rec0, hr0, hpr0⟩ | ⟨nd', hnd', ht', hv'⟩
            · rcases List.mem_append.mp hr0 with ha | hb
              · exact Or.inl ⟨rec0, (List.dropLast_sublist acc).subset ha, hpr0⟩
              · obtain rfl : rec0 = last ++ [(nd.tag, v)] := by simpa using hb
                rcases List.mem_append.mp hpr0 with hc | hd
                · exact Or.inl ⟨last, List.mem_of_mem_getLast? hl, hc⟩
                · obtain rfl : pr = (nd.tag, v) := by simpa using hd
                  exact Or.inr ⟨nd, List.mem_cons_self _ _, rfl, hv⟩
            · exact Or.inr ⟨nd', List.mem_cons_of_mem _ hnd', ht', hv'⟩
      · rw [if_neg h2] at h
        by_cases h3 : nd.tag = "ExtResults"
        · rw [if_pos h3] at h
          simp only [Except.ok.injEq] at h
          subst h
          exact Or.inl ⟨rec, hrec, hpr⟩
        · rw [if_neg h3] at h
          rcases ih acc res h rec hrec pr hpr with hleft | ⟨nd', h', ht', hv'⟩
          · exact Or.inl hleft
          · exact Or.inr ⟨nd', List.mem_cons_of_mem _ h', ht', hv'⟩

theorem atom_digit_text (m : ℕ) (hm : m < 10) :
    parseInt (toString m) = some (m : ℤ)
      ∧ ("0" ++ toString m).length = 2 := by
  interval_cases m <;> exact ⟨by decide, by decide⟩

/-- Claim C8: every `Atom` pair stored in a parsed Results block comes
from an `Atom` node whose text parses to an integer `n`; the stored value
is `"0"` prefixed to the source text exactly when `n < 10` and the
unchanged source text when `n ≥ 10`; in particular, a canonical decimal
text of a number below ten becomes the two-character zero-padded
string. -/
theorem C8_atom_padding (L : List RNode) (res : List (List (String × String)))
    (h : walkResults L [] = Except.ok res)
    (rec : List (String × String)) (hrec : rec ∈ res)
    (pr : String × String) (hpr : pr ∈ rec) (hatom : pr.1 = "Atom") :
    ∃ nd ∈ L, nd.tag = "Atom" ∧ ∃ n : ℤ, parseInt nd.text = some n ∧
      (n < 10 → pr.2 = "0" ++ nd.text) ∧
      (10 ≤ n → pr.2 = nd.text) ∧
      (∀ m : ℕ, m < 10 → nd.text = toString m →
        pr.2 = "0" ++ nd.text ∧ pr.2.length = 2) := by
  rcases walkResults_mem L [] res h rec hrec pr hpr with
    ⟨rec0, hr0, -⟩ | ⟨nd, hnd, ht, hv⟩
  · simp at hr0
  · have htag : nd.tag = "Atom" := ht.trans hatom
    refine ⟨nd, hnd, htag, ?_⟩
    rw [paramValue, if_pos htag] at hv
    cases hn : parseInt nd.text with
    | none =>
      rw [hn] at hv
      exact Except.noConfusion hv
    | some n =>
      simp only [hn, Except.ok.injEq] at hv
      refine ⟨n, rfl, ?_, ?_, ?_⟩
      · intro hlt
        rw [← hv, if_pos hlt]
      · intro hge
        rw [← hv, if_neg (by omega)]
      · intro m hm htext
        obtain ⟨hpm, hlen⟩ := atom_digit_text m hm
        rw [htext, hpm] at hn
        obtain rfl : (m : ℤ) = n := by simpa using hn
        have hm' : (m : ℤ) < 10 := by exact_mod_cast hm
        refine ⟨by rw [← hv, if_pos hm'], ?_⟩
        rw [← hv, if_pos hm', htext]
        exact hlen

/-- Concrete run of `C8_atom_padding`: the block
`[Result, Atom "7", Atom "12"]` stores `("Atom", "07")`, traced back to
the `Atom "7"` node. -/
theorem C8_atom_padding_witness :
    ∃ nd ∈ [RNode.mk "Result" "", RNode.mk "Atom" "7", RNode.mk "Atom" "12"],
      nd.tag = "Atom" ∧ ∃ n : ℤ, parseInt nd.text = some n ∧
      (n < 10 → ("Atom", "07").2 = "0" ++ nd.text) ∧
      (10 ≤ n → ("Atom", "07").2 = nd.text) ∧
      (∀ m : ℕ, m < 10 → nd.text = toString m →
        ("Atom", "07").2 = "0" ++ nd.text ∧ ("Atom", "07").2.length = 2) :=
  C8_atom_padding
    [RNode.mk "Result" "", RNode.mk "Atom" "7", RNode.mk "Atom" "12"]
    [[("Atom", "07"), ("Atom", "12")]] rfl
    [("Atom", "07"), ("Atom", "12")] (by decide)
    ("Atom", "07") (by decide) (by decide)

/-- The claimed precondition of the Results walk: in the block, a
`Result` marker precedes the first occurrence of a whitelisted attribute
tag (vacuously true when no whitelisted tag occurs). -/
def precondHolds : List RNode → Bool
  | [] => true
  | nd :: rest =>
    if nd.tag = "Result" then true
    else if nd.tag ∈ params then false
    else precondHolds rest

/-- The blocks on which the out-of-bounds access is actually reached: the
first whitelisted attribute comes before any `Result` marker and before
any `ExtResults` marker, and — when it is an `Atom` — its text parses, so
that `int(child.text)` does not raise first. -/
def violatesAccess : List RNode → Bool
  | [] => false
  | nd :: rest =>
    if nd.tag = "Result" then false
    else if nd.tag ∈ params then
      if nd.tag = "Atom" then (parseInt nd.text).isSome else true
    else if nd.tag = "ExtResults" then false
    else violatesAccess rest

theorem walkResults_ne_indexError_of_ne_nil (L : List RNode) :
    ∀ acc, acc ≠ [] →
      walkResults L acc ≠ Except.error WalkErr.indexError := by
  induction L with
  | nil =>
    intro acc _ h
    exact Except.noConfusion h
  | cons nd rest ih =>
    intro acc hacc
    simp only [walkResults]
    by_cases h1 : nd.tag = "Result"
    · rw [if_pos h1]
      exact ih (acc ++ [[]]) (by simp)
    · rw [if_neg h1]
      by_cases h2 : nd.tag ∈ params
      · rw [if_pos h2]
        cases hv : paramValue nd with
        | error er =>
          have her : er = WalkErr.valueError := by
            unfold paramValue at hv
            by_cases ha : nd.tag = "Atom"
            · rw [if_pos ha] at hv
              cases hn : parseInt nd.text with
              | none =>
                simp only [hn, Except.error.injEq] at hv
                exact hv.symm
              | some n =>
                rw [hn] at hv
                exact Except.noConfusion hv
            · rw [if_neg ha] at hv
              exact Except.noConfusion hv
          subst her
          intro hcontra
          simp at hcontra
        | ok v =>
          cases hl : acc.getLast? with
          | none =>
            exact absurd (List.getLast?_isSome.mpr hacc) (by simp [hl])
          | some last =>
            exact ih _ (by simp)
      · rw [if_neg h2]
        by_cases h3 : nd.tag = "ExtResults"
        · rw [if_pos h3]
          intro hcontra
          exact Except.noConfusion hcontra
        · rw [if_neg h3]
          exact ih acc hacc

/-- Claim C10, amended: under the stated precondition the
`results_ext[-1]` access of the Results walk is always defined (the walk
never raises the `IndexError`); conversely, on a block where the first
whitelisted attribute is reached before any `Result` and before any
`ExtResults` marker (and, for an `Atom`, its text parses), the access is
out of bounds and the walk raises exactly that `IndexError`. -/
theorem C10_last_access (L : List RNode) :
    (precondHolds L = true →
      walkResults L [] ≠ Except.error WalkErr.indexError) ∧
    (violatesAccess L = true →
      walkResults L [] = Except.error WalkErr.indexError) := by
  induction L with
  | nil =>
    refine ⟨fun _ h => Except.noConfusion h, fun h => ?_⟩
    simp [violatesAccess] at h
  | cons nd rest ih =>
    constructor
    · intro hpre
      simp only [walkResults]
      by_cases h1 : nd.tag = "Result"
      · rw [if_pos h1]
        exact walkResults_ne_indexError_of_ne_nil rest ([] ++ [[]]) (by simp)
      · rw [if_neg h1]
        by_cases h2 : nd.tag ∈ params
        · rw [precondHolds, if_neg h1, if_pos h2] at hpre
          exact Bool.noConfusion hpre
        · rw [if_neg h2]
          by_cases h3 : nd.tag = "ExtResults"
          · rw [if_pos h3]
            intro hcontra
            exact Except.noConfusion hcontra
          · rw [if_neg h3]
            have hpre' : precondHolds rest = true := by
              simpa [precondHolds, h1, h2] using hpre
            exact ih.1 hpre'
    · intro hviol
      simp only [walkResults]
      by_cases h1 : nd.tag = "Result"
      · simp [violatesAccess, h1] at hviol
      · rw [if_neg h1]
        by_cases h2 : nd.tag ∈ params
        · rw [if_pos h2]
          by_cases ha : nd.tag = "Atom"
          · have hsome : (parseInt nd.text).isSome = true := by
              simpa [violatesAccess, h1, h2, ha] using hviol
            obtain ⟨n, hn⟩ := Option.isSome_iff_exists.mp hsome
            have hv : paramValue nd
                = Except.ok (if n < 10 then "0" ++ nd.text else nd.text) := by
              rw [paramValue, if_pos ha, hn]
            rw [hv]
            simp [List.getLast?]
          · have hv : paramValue nd = Except.ok nd.text := by
              rw [paramValue, if_neg ha]
            rw [hv]
            simp [List.getLast?]
        · rw [if_neg h2]
          by_cases h3 : nd.tag = "ExtResults"
          · rw [violatesAccess, if_neg h1, if_neg h2, if_pos h3] at hviol
            exact Bool.noConfusion hviol
          · rw [if_neg h3]
            have hviol' : violatesAccess rest = true := by
              simpa [violatesAccess, h1, h2, h3] using hviol
            exact ih.2 hviol'

/-- Concrete runs of `C10_last_access`: the block
`[Result, AtomPercent "5"]` satisfies the precondition and walks without
an `IndexError`; the block `[AtomPercent "5"]` reaches the access with no
record started and raises it. -/
theorem C10_last_access_witness :
    walkResults [RNode.mk "Result" "", RNode.mk "AtomPercent" "5"] []
      ≠ Except.error WalkErr.indexError ∧
    walkResults [RNode.mk "AtomPercent" "5"] []
      = Except.error WalkErr.indexError :=
  ⟨(C10_last_access [RNode.mk "Result" "", RNode.mk "AtomPercent" "5"]).1
      (by decide),
   (C10_last_access [RNode.mk "AtomPercent" "5"]).2 (by decide)⟩

/-- Claim C10 as stated is false in its converse half: the block
`[ExtResults, AtomPercent "5"]` violates the precondition (its
whitelisted attribute has no preceding `Result`), yet the walk stops at
the `ExtResults` marker and returns normally — the access is never
reached. -/
theorem C10_counterexample :
    precondHolds [RNode.mk "ExtResults" "", RNode.mk "AtomPercent" "5"]
      = false ∧
    walkResults [RNode.mk "ExtResults" "", RNode.mk "AtomPercent" "5"] []
      = Except.ok [] :=
  ⟨by decide, rfl⟩

/-- Claim C6, amended: a null folder makes `generate_spectra` return the
fixed 700×1300 empty scatter without touching the file system; a null
folder or element makes `generate_heatmap` return the fixed 800×800 empty
heatmap; and when the folder's summary is present and readable
(`get_elements` succeeds with a pair) but the requested element is not
among the element options, `generate_heatmap` also returns the empty
heatmap.  (For a folder whose summary file is absent the source instead
raises, see `C3_missing_summary_bug`.) -/
theorem C6_empty_inputs :
    (∀ (fs : String → ℤ × ℤ → Option (List XElem)) (x y : ℤ),
      generate_spectra fs none x y = some (Fig.emptyScatter 700 1300)) ∧
    (∀ (tables : String → Option Table) (e? : Option String),
      generate_heatmap tables none e? = some (Fig.emptyHeatmap 800 800)) ∧
    (∀ (tables : String → Option Table) (f : String),
      generate_heatmap tables (some f) none = some (Fig.emptyHeatmap 800 800)) ∧
    (∀ (tables : String → Option Table) (f e : String)
      (elms : List Cell) (data : Table),
      get_elements (tables f) true = some (GEResult.pair elms data) →
      Cell.str e ∉ elms →
      generate_heatmap tables (some f) (some e)
        = some (Fig.emptyHeatmap 800 800)) := by
  refine ⟨fun fs x y => rfl, fun tables e? => rfl, fun tables f => rfl,
    fun tables f e elms data hge hmem => ?_⟩
  simp only [generate_heatmap, hge]
  rw [if_neg hmem]

/-- Concrete run of `C6_empty_inputs`: on `heatTable` the element `Co`
has a zero total, is excluded from the options, and the heatmap is the
fixed empty plot. -/
theorem C6_empty_inputs_witness :
    generate_heatmap (fun _ => some heatTable) (some "folder") (some "Co")
      = some (Fig.emptyHeatmap 800 800) :=
  C6_empty_inputs.2.2.2 (fun _ => some heatTable) "folder" "Co"
    [Cell.str "Fe", Cell.str "Nb"] heatTable (by decide) (by decide)

/-- Claim C6 as stated is false for a folder whose summary file is
absent: the requested element is then not among the (empty) element
options, so the claim requires the fixed empty plot, but the source
raises while unpacking the bare list `get_elements` returned. -/
theorem C6_counterexample :
    generate_heatmap (fun _ => none) (some "folder") (some "Co") = none ∧
    Cell.str "Co" ∉ ([] : List Cell) :=
  ⟨rfl, by decide⟩

end EDX
